import Mathlib

/-!
A verification development for `tool/build_mbtiles.py`, a one-shot batch
converter from a directory tree of raster map tiles (`{z}/{x}/{y}.png`)
into a single MBTiles SQLite container.

The script is shallowly embedded:

* the source directory tree becomes the inductive `Entry`;
* the directory walk of `main` (its nested `for` loops with their
  `is_dir` / `isdigit` / suffix / stem filters and lexical sorting)
  becomes `walkTiles`;
* Python integers become `ℕ`/`ℤ` (directory and stem names are digit
  strings, hence non-negative; the stored `tile_row` is an `ℤ` because
  `(1 << z) - 1 - y` may be negative);
* the SQLite `tiles` table with its unique index on
  `(zoom_level, tile_column, tile_row)` becomes `DB`, with pending
  (uncommitted) rows separated from committed ones; the
  `journal_mode=OFF` / `synchronous=OFF` pragmas trade durability and
  are outside the model, which gives transactions their SQL semantics;
* the floating-point bounds arithmetic of `tile_bounds` is embedded
  over `ℝ` (exact reals; float rounding is not modelled);
* the process outcome (SystemExit / uncaught exception / success) and
  the existence of the destination file become `RunResult`.
-/

/-- A directory entry of the source tree: either a directory with a name
and children, or a regular file with a name and (opaque, numbered)
byte content.  `tile_data` blobs are modelled by the `ℕ` tag. -/
inductive Entry where
  | dir (name : String) (children : List Entry)
  | file (name : String) (data : ℕ)

def entryName : Entry → String
  | .dir n _ => n
  | .file n _ => n

/-- Lexicographic (code-point) comparison of names, the order used by
Python's `sorted(..., key=lambda p: p.name)`. -/
def charListLe : List Char → List Char → Bool
  | [], _ => true
  | _ :: _, [] => false
  | a :: as, b :: bs =>
    if a.toNat < b.toNat then true
    else if b.toNat < a.toNat then false
    else charListLe as bs

def nameLe (a b : Entry) : Bool :=
  charListLe (entryName a).toList (entryName b).toList

/-- Stable insertion into a sorted list; `sortBy` below models Python's
stable `sorted`. -/
def insertSorted (le : α → α → Bool) (a : α) : List α → List α
  | [] => [a]
  | b :: bs => if le a b then a :: b :: bs else b :: insertSorted le a bs

def sortBy (le : α → α → Bool) (xs : List α) : List α :=
  xs.foldr (insertSorted le) []

/-- Python `str.isdigit` (restricted to ASCII, which is all the script
meets): non-empty and all decimal digits. -/
def pyIsDigit (cs : List Char) : Bool :=
  !cs.isEmpty && cs.all Char.isDigit

/-- Python `int(...)` on a digit string. -/
def parseDigits (cs : List Char) : ℕ :=
  cs.foldl (fun a c => 10 * a + (c.toNat - 48)) 0

/-- Index of the last `.` in a name, or `none` (Python `str.rfind`). -/
def lastDotIdx (cs : List Char) : Option ℕ :=
  (cs.foldl
    (fun (acc : ℕ × Option ℕ) c =>
      (acc.1 + 1, if c = '.' then some acc.1 else acc.2))
    (0, none)).2

/-- Model of `pathlib.PurePath.suffix`: the part of the name from its last dot,
empty when the dot is absent, leading, or trailing. -/
def pySuffix (cs : List Char) : List Char :=
  match lastDotIdx cs with
  | some i => if 0 < i ∧ i < cs.length - 1 then cs.drop i else []
  | none => []

/-- Model of `pathlib.PurePath.stem`: the name with `pySuffix` removed. -/
def pyStem (cs : List Char) : List Char :=
  match lastDotIdx cs with
  | some i => if 0 < i ∧ i < cs.length - 1 then cs.take i else cs
  | none => cs

/-- A tile yielded by the directory walk: zoom, column, row in the XYZ
(origin top-left) convention of the source layout, plus its bytes. -/
structure TileRec where
  z : ℕ
  x : ℕ
  y : ℕ
  data : ℕ
deriving DecidableEq, Repr

/-- The third-level filter of `main`'s inner loop: an entry yields a
tile exactly when its suffix lowercases to `.png` and its stem is a
digit string.  (The script never checks `is_file` here; a directory
with a matching name would make `open` raise.  Such trees are outside
this model — no claim concerns them.) -/
def tileFromEntry : Entry → Option (ℕ × ℕ)
  | .dir _ _ => none
  | .file name data =>
    let cs := name.toList
    if (pySuffix cs).map Char.toLower = ".png".toList then
      if pyIsDigit (pyStem cs) then some (parseDigits (pyStem cs), data)
      else none
    else none

/-- The first- and second-level filter of `main`'s loops: directories
whose name is a digit string; everything else is silently skipped. -/
def dirFromEntry : Entry → Option (ℕ × List Entry)
  | .dir name cs =>
    if pyIsDigit name.toList then some (parseDigits name.toList, cs) else none
  | .file _ _ => none

/-- Tiles of one column directory (`for tile_file in sorted(x_dir.iterdir())`). -/
def tilesOfCol (z x : ℕ) (children : List Entry) : List TileRec :=
  ((sortBy nameLe children).filterMap tileFromEntry).map
    (fun yd => ⟨z, x, yd.1, yd.2⟩)

/-- Tiles of one zoom directory (`for x_dir in sorted(z_dir.iterdir())`). -/
def tilesOfZoom (z : ℕ) (children : List Entry) : List TileRec :=
  (((sortBy nameLe children).filterMap dirFromEntry).map
    (fun xc => tilesOfCol z xc.1 xc.2)).flatten

/-- The full walk of `main`'s nested loops over the source tree: the
sequence of tiles read and inserted, in visit order. -/
def walkTiles (entries : List Entry) : List TileRec :=
  (((sortBy nameLe entries).filterMap dirFromEntry).map
    (fun zc => tilesOfZoom zc.1 zc.2)).flatten

/-- The valid zoom directories in visit order.  `main` updates
`min_zoom` / `max_zoom` once per element of this list (lines 62-63),
*before* descending into the directory. -/
def walkZoomDirs (entries : List Entry) : List ℕ :=
  ((sortBy nameLe entries).filterMap dirFromEntry).map (fun zc => zc.1)

/-- The accumulator step shared by all the running min/max variables of
`main`: `acc = v if acc is None else f(acc, v)`. -/
def accStep (f : α → α → α) (a : Option α) (x : α) : Option α :=
  some (a.elim x (fun v => f v x))

/-- Value of `min_zoom` after the walk (line 62). -/
def minZoomAcc (entries : List Entry) : Option ℕ :=
  (walkZoomDirs entries).foldl (accStep min) none

/-- Value of `max_zoom` after the walk (line 63). -/
def maxZoomAcc (entries : List Entry) : Option ℕ :=
  (walkZoomDirs entries).foldl (accStep max) none

/-- Line 77, `tms_y = (1 << z) - 1 - y`, the XYZ→TMS row conversion.
Over `ℤ`: the script never range-checks `y`, so this can be negative. -/
def tmsRow (z y : ℕ) : ℤ :=
  ((1 <<< z : ℕ) : ℤ) - 1 - (y : ℤ)

/-- A row of the `tiles` table. -/
structure Row where
  zoom_level : ℕ
  tile_column : ℕ
  tile_row : ℤ
  tile_data : ℕ
deriving DecidableEq, Repr

/-- The row the INSERT statement stores for a walked tile
(`(z, x, tms_y, data)`, lines 78-82). -/
def rowOfTile (t : TileRec) : Row :=
  ⟨t.z, t.x, tmsRow t.z t.y, t.data⟩

/-- The column triple covered by the unique index `idx_tiles_zxy`. -/
def rowKey (r : Row) : ℕ × ℕ × ℤ :=
  (r.zoom_level, r.tile_column, r.tile_row)

/-- The destination database: rows already committed (visible to
external readers) and rows pending in the open transaction.  The
`journal_mode=OFF` / `synchronous=OFF` pragmas trade durability for
speed; the model keeps the SQL semantics of `BEGIN` / `COMMIT`. -/
structure DB where
  committed : List Row
  pending : List Row
deriving DecidableEq, Repr

/-- One `INSERT INTO tiles ...` under the unique index: fails
(IntegrityError) when the key triple is already present, committed or
pending. -/
def DB.insertTile (db : DB) (r : Row) : Except Unit DB :=
  if (db.committed ++ db.pending).any (fun q => decide (rowKey q = rowKey r))
  then .error ()
  else .ok { db with pending := db.pending ++ [r] }

/-- A `COMMIT`: pending rows become visible. -/
def DB.commitTxn (db : DB) : DB :=
  ⟨db.committed ++ db.pending, []⟩

/-- The insert loop over the walked tiles.  On an IntegrityError the
exception propagates (no commit runs): the database state at the
failure is returned on the error side. -/
def insertAll (db : DB) : List TileRec → Except DB DB
  | [] => .ok db
  | t :: ts =>
    match db.insertTile (rowOfTile t) with
    | .error _ => .error db
    | .ok db2 => insertAll db2 ts

/-- How the run ends: `SystemExit` on a missing source, an uncaught
IntegrityError on a duplicate coordinate, `SystemExit` on an empty tile
set, or normal completion. -/
inductive Outcome where
  | sourceMissing
  | dupError
  | emptyTileSet
  | success
deriving DecidableEq, Repr

/-- Process exit code: `raise SystemExit(msg)` and an uncaught
exception exit non-zero; the success path exits 0. -/
def Outcome.exitCode : Outcome → ℕ
  | .success => 0
  | _ => 1

/-- Observable result of a run: how it ended, whether a file exists at
the destination path afterwards, and the committed rows of `tiles`. -/
structure RunResult where
  outcome : Outcome
  destExists : Bool
  committed : List Row
deriving DecidableEq, Repr

/-- The control flow of `main` over a source tree (`entries` are the
children of the source directory when it exists):

* lines 21-22: missing source → `SystemExit` before any write;
* lines 24-28: delete a pre-existing destination, then
  `sqlite3.connect` creates a fresh file (so the destination exists on
  every later path);
* lines 55-88: `BEGIN`, then insert every walked tile; an
  IntegrityError propagates with nothing committed;
* line 90: `COMMIT`;
* lines 92-93: zero tiles → `SystemExit` (the created file remains);
* otherwise metadata is written and the run succeeds.

`tile_count` is incremented once per inserted tile, so it equals
`(walkTiles entries).length` on the paths that reach line 92. -/
def runModel (sourceExists : Bool) (entries : List Entry) (destBefore : Bool) :
    RunResult :=
  if sourceExists = false then
    ⟨.sourceMissing, destBefore, []⟩
  else
    match insertAll ⟨[], []⟩ (walkTiles entries) with
    | .error dbErr => ⟨.dupError, true, dbErr.committed⟩
    | .ok db1 =>
      if (walkTiles entries).length = 0 then
        ⟨.emptyTileSet, true, db1.commitTxn.committed⟩
      else
        ⟨.success, true, db1.commitTxn.committed⟩

/-- Lines 13-14, `mercator_to_lat`:
`math.degrees(math.atan(math.sinh(math.pi * (1 - 2 * tile_y / n))))`,
with `math.degrees x = x * 180 / π`. -/
noncomputable def mercator_to_lat (n t : ℝ) : ℝ :=
  Real.arctan (Real.sinh (Real.pi * (1 - 2 * t / n))) * (180 / Real.pi)

/-- Lines 9-17, `tile_bounds`: per-tile Web Mercator edges
`(lon_left, lat_bottom, lon_right, lat_top)`, with `n = 1 << z`. -/
noncomputable def tile_bounds (x y z : ℕ) : ℝ × ℝ × ℝ × ℝ :=
  let n : ℝ := ((1 <<< z : ℕ) : ℝ)
  (x / n * 360 - 180,
   mercator_to_lat n (y + 1),
   (x + 1) / n * 360 - 180,
   mercator_to_lat n y)

noncomputable def lonLeftOf (t : TileRec) : ℝ := (tile_bounds t.x t.y t.z).1
noncomputable def latBottomOf (t : TileRec) : ℝ := (tile_bounds t.x t.y t.z).2.1
noncomputable def lonRightOf (t : TileRec) : ℝ := (tile_bounds t.x t.y t.z).2.2.1
noncomputable def latTopOf (t : TileRec) : ℝ := (tile_bounds t.x t.y t.z).2.2.2

/-- The four running bounds variables of `main` (lines 49-52). -/
structure BoundsAcc where
  minLon : Option ℝ
  minLat : Option ℝ
  maxLon : Option ℝ
  maxLat : Option ℝ

/-- One iteration of the bounds accumulation (lines 83-87). -/
noncomputable def foldBounds (a : BoundsAcc) (t : TileRec) : BoundsAcc :=
  { minLon := accStep min a.minLon (lonLeftOf t)
    minLat := accStep min a.minLat (latBottomOf t)
    maxLon := accStep max a.maxLon (lonRightOf t)
    maxLat := accStep max a.maxLat (latTopOf t) }

/-- The bounds accumulators after the walk: `main` folds them over the
inserted tiles in visit order. -/
noncomputable def boundsAcc (ts : List TileRec) : BoundsAcc :=
  ts.foldl foldBounds ⟨none, none, none, none⟩

/-- Modelled from the spec: the fold `f` over a whole list (its "union"
across all tiles present), `none` on the empty list. -/
def runningFold (f : α → α → α) : List α → Option α
  | [] => none
  | a :: as => some (as.foldl f a)

/-- Modelled from the spec: the minimum over exactly the elements present. -/
def minOver [Min α] (l : List α) : Option α := runningFold min l

/-- Modelled from the spec: the maximum over exactly the elements present. -/
def maxOver [Max α] (l : List α) : Option α := runningFold max l

/-- Modelled from the spec: per-tile Web Mercator edge formulas as the
spec writes them, with `n = 2^z` and `degrees x = x * 180 / π`. -/
noncomputable def specLonLeft (x z : ℕ) : ℝ :=
  (x : ℝ) / (2 ^ z : ℝ) * 360 - 180

noncomputable def specLonRight (x z : ℕ) : ℝ :=
  ((x : ℝ) + 1) / (2 ^ z : ℝ) * 360 - 180

noncomputable def specLat (z : ℕ) (row : ℝ) : ℝ :=
  Real.arctan (Real.sinh (Real.pi * (1 - 2 * row / (2 ^ z : ℝ)))) * (180 / Real.pi)

/-- A metadata value.  `vstr` is a literal string; `vbounds` and
`vcenter` carry the exact real numbers whose fixed 6-decimal renderings
(`f-string :.6f`; float rounding not modelled) the script stores, and
`vcenter` additionally the integer center zoom. -/
inductive MVal where
  | vstr (s : String)
  | vbounds (minLon minLat maxLon maxLat : ℝ)
  | vcenter (lon lat : ℝ) (zoom : ℕ)

/-- The `metadata` dict of `main` (lines 95-110), in insertion order.
`center_zoom = min_zoom if min_zoom == max_zoom else
(min_zoom + max_zoom) // 2`; `ℕ` floor division matches Python `//`
on these non-negative values. -/
noncomputable def buildMetadata (minLon minLat maxLon maxLat : ℝ)
    (minZ maxZ count : ℕ) : List (String × MVal) :=
  let centerZoom := if minZ = maxZ then minZ else (minZ + maxZ) / 2
  [("name", .vstr "Campus Map"),
   ("type", .vstr "baselayer"),
   ("description", .vstr "Offline campus tiles"),
   ("format", .vstr "png"),
   ("version", .vstr "1.0"),
   ("bounds", .vbounds minLon minLat maxLon maxLat),
   ("center", .vcenter ((minLon + maxLon) / 2) ((minLat + maxLat) / 2) centerZoom),
   ("minzoom", .vstr (toString minZ)),
   ("maxzoom", .vstr (toString maxZ)),
   ("tilecount", .vstr (toString count))]

/-- The metadata rows the success path inserts, as a function of the
source tree.  On the success path every accumulator is `Some`; the
`none` branch is the unreachable configuration in which line 95 would
raise a `TypeError` on `None`. -/
noncomputable def metadataOf (entries : List Entry) : Option (List (String × MVal)) :=
  match boundsAcc (walkTiles entries), minZoomAcc entries, maxZoomAcc entries with
  | ⟨some a, some b, some c, some d⟩, some mz, some Mz =>
    some (buildMetadata a b c d mz Mz (walkTiles entries).length)
  | _, _, _ => none

/-! ## Helper lemmas -/

theorem foldl_accStep_some (f : α → α → α) :
    ∀ (l : List α) (v : α), l.foldl (accStep f) (some v) = some (l.foldl f v)
  | [], _ => rfl
  | a :: as, v => foldl_accStep_some f as (f v a)

theorem foldl_accStep_none (f : α → α → α) :
    ∀ l : List α, l.foldl (accStep f) none = runningFold f l
  | [] => rfl
  | a :: as => foldl_accStep_some f as a

theorem foldBounds_minLon :
    ∀ (ts : List TileRec) (a : BoundsAcc),
      (ts.foldl foldBounds a).minLon =
        (ts.map lonLeftOf).foldl (accStep min) a.minLon
  | [], _ => rfl
  | t :: ts, a => foldBounds_minLon ts (foldBounds a t)

theorem foldBounds_minLat :
    ∀ (ts : List TileRec) (a : BoundsAcc),
      (ts.foldl foldBounds a).minLat =
        (ts.map latBottomOf).foldl (accStep min) a.minLat
  | [], _ => rfl
  | t :: ts, a => foldBounds_minLat ts (foldBounds a t)

theorem foldBounds_maxLon :
    ∀ (ts : List TileRec) (a : BoundsAcc),
      (ts.foldl foldBounds a).maxLon =
        (ts.map lonRightOf).foldl (accStep max) a.maxLon
  | [], _ => rfl
  | t :: ts, a => foldBounds_maxLon ts (foldBounds a t)

theorem foldBounds_maxLat :
    ∀ (ts : List TileRec) (a : BoundsAcc),
      (ts.foldl foldBounds a).maxLat =
        (ts.map latTopOf).foldl (accStep max) a.maxLat
  | [], _ => rfl
  | t :: ts, a => foldBounds_maxLat ts (foldBounds a t)

theorem foldl_min_le_init [LinearOrder α] :
    ∀ (l : List α) (v : α), l.foldl min v ≤ v
  | [], _ => le_refl _
  | x :: l, v => le_trans (foldl_min_le_init l (min v x)) (min_le_left v x)

theorem init_le_foldl_max [LinearOrder α] :
    ∀ (l : List α) (v : α), v ≤ l.foldl max v
  | [], _ => le_refl _
  | x :: l, v => le_trans (le_max_left v x) (init_le_foldl_max l (max v x))

theorem one_shiftLeft_cast_real (z : ℕ) :
    ((1 <<< z : ℕ) : ℝ) = (2 : ℝ) ^ z := by
  rw [Nat.one_shiftLeft]
  push_cast
  ring

theorem one_shiftLeft_cast_pos (z : ℕ) : (0 : ℝ) < ((1 <<< z : ℕ) : ℝ) := by
  rw [one_shiftLeft_cast_real]
  positivity

theorem mercator_to_lat_anti {n : ℝ} (hn : 0 < n) {s t : ℝ} (h : s ≤ t) :
    mercator_to_lat n t ≤ mercator_to_lat n s := by
  unfold mercator_to_lat
  have hpi := Real.pi_pos
  have h1 : Real.pi * (1 - 2 * t / n) ≤ Real.pi * (1 - 2 * s / n) := by
    have h2 : 2 * s / n ≤ 2 * t / n := by gcongr
    nlinarith
  have h3 := Real.arctan_strictMono.monotone (Real.sinh_le_sinh.mpr h1)
  have h4 : (0 : ℝ) ≤ 180 / Real.pi := by positivity
  exact mul_le_mul_of_nonneg_right h3 h4

theorem lonLeft_le_lonRight (t : TileRec) : lonLeftOf t ≤ lonRightOf t := by
  unfold lonLeftOf lonRightOf tile_bounds
  have hn := one_shiftLeft_cast_pos t.z
  have h1 : (t.x : ℝ) / ((1 <<< t.z : ℕ) : ℝ) ≤
      ((t.x : ℝ) + 1) / ((1 <<< t.z : ℕ) : ℝ) := by gcongr; linarith
  simp only
  nlinarith

theorem latBottom_le_latTop (t : TileRec) : latBottomOf t ≤ latTopOf t := by
  unfold latBottomOf latTopOf tile_bounds
  simp only
  exact mercator_to_lat_anti (one_shiftLeft_cast_pos t.z) (by linarith)

/-- After a non-empty walk every bounds accumulator is `Some`, with the
ordering guaranteed by the per-tile edge inequalities. -/
theorem boundsAcc_some (ts : List TileRec) (h : ts ≠ []) :
    ∃ a b c d, boundsAcc ts = ⟨some a, some b, some c, some d⟩ ∧
      a ≤ c ∧ b ≤ d := by
  obtain ⟨t, rest, hts⟩ : ∃ t rest, ts = t :: rest := by
    cases ts with
    | nil => exact absurd rfl h
    | cons a l => exact ⟨a, l, rfl⟩
  have h1 : (boundsAcc ts).minLon =
      some ((rest.map lonLeftOf).foldl min (lonLeftOf t)) := by
    rw [boundsAcc, foldBounds_minLon, hts, List.map_cons, List.foldl_cons]
    exact foldl_accStep_some min _ _
  have h2 : (boundsAcc ts).minLat =
      some ((rest.map latBottomOf).foldl min (latBottomOf t)) := by
    rw [boundsAcc, foldBounds_minLat, hts, List.map_cons, List.foldl_cons]
    exact foldl_accStep_some min _ _
  have h3 : (boundsAcc ts).maxLon =
      some ((rest.map lonRightOf).foldl max (lonRightOf t)) := by
    rw [boundsAcc, foldBounds_maxLon, hts, List.map_cons, List.foldl_cons]
    exact foldl_accStep_some max _ _
  have h4 : (boundsAcc ts).maxLat =
      some ((rest.map latTopOf).foldl max (latTopOf t)) := by
    rw [boundsAcc, foldBounds_maxLat, hts, List.map_cons, List.foldl_cons]
    exact foldl_accStep_some max _ _
  refine ⟨(rest.map lonLeftOf).foldl min (lonLeftOf t),
    (rest.map latBottomOf).foldl min (latBottomOf t),
    (rest.map lonRightOf).foldl max (lonRightOf t),
    (rest.map latTopOf).foldl max (latTopOf t), ?_, ?_, ?_⟩
  · have heta : boundsAcc ts =
        ⟨(boundsAcc ts).minLon, (boundsAcc ts).minLat,
         (boundsAcc ts).maxLon, (boundsAcc ts).maxLat⟩ := rfl
    rw [h1, h2, h3, h4] at heta
    exact heta
  · calc (rest.map lonLeftOf).foldl min (lonLeftOf t)
        ≤ lonLeftOf t := foldl_min_le_init _ _
      _ ≤ lonRightOf t := lonLeft_le_lonRight t
      _ ≤ (rest.map lonRightOf).foldl max (lonRightOf t) := init_le_foldl_max _ _
  · calc (rest.map latBottomOf).foldl min (latBottomOf t)
        ≤ latBottomOf t := foldl_min_le_init _ _
      _ ≤ latTopOf t := latBottom_le_latTop t
      _ ≤ (rest.map latTopOf).foldl max (latTopOf t) := init_le_foldl_max _ _

theorem walkZoomDirs_ne_nil {entries : List Entry}
    (h : walkTiles entries ≠ []) : walkZoomDirs entries ≠ [] := by
  intro hz
  apply h
  unfold walkTiles
  unfold walkZoomDirs at hz
  cases h' : (sortBy nameLe entries).filterMap dirFromEntry with
  | nil => rfl
  | cons a l => rw [h'] at hz; simp at hz

theorem zoomAcc_some (entries : List Entry)
    (h : walkZoomDirs entries ≠ []) :
    ∃ mz Mz, minZoomAcc entries = some mz ∧ maxZoomAcc entries = some Mz := by
  cases h' : walkZoomDirs entries with
  | nil => exact absurd h' h
  | cons z zs =>
    refine ⟨zs.foldl min z, zs.foldl max z, ?_, ?_⟩
    · rw [minZoomAcc, h', List.foldl_cons]
      exact foldl_accStep_some min _ _
    · rw [maxZoomAcc, h', List.foldl_cons]
      exact foldl_accStep_some max _ _

theorem insertTile_ok {db db2 : DB} {r : Row}
    (h : db.insertTile r = .ok db2) :
    db2 = ⟨db.committed, db.pending ++ [r]⟩ ∧
      ∀ q ∈ db.committed ++ db.pending, rowKey q ≠ rowKey r := by
  unfold DB.insertTile at h
  split at h
  · exact absurd h (by simp)
  · next hany =>
    simp only [Except.ok.injEq] at h
    refine ⟨h.symm, ?_⟩
    simp only [List.any_eq_true, decide_eq_true_eq] at hany
    push_neg at hany
    exact hany

theorem insertAll_error_committed :
    ∀ (ts : List TileRec) (db db' : DB),
      insertAll db ts = .error db' → db'.committed = db.committed := by
  intro ts
  induction ts with
  | nil => intro db db' h; exact absurd h (by simp [insertAll])
  | cons t ts ih =>
    intro db db' h
    unfold insertAll at h
    cases hI : db.insertTile (rowOfTile t) with
    | error e =>
      rw [hI] at h
      simp only [Except.error.injEq] at h
      rw [← h]
    | ok db2 =>
      rw [hI] at h
      rw [ih db2 db' h, (insertTile_ok hI).1]

theorem insertAll_ok_eq :
    ∀ (ts : List TileRec) (db db' : DB),
      insertAll db ts = .ok db' →
        db' = ⟨db.committed, db.pending ++ ts.map rowOfTile⟩ := by
  intro ts
  induction ts with
  | nil =>
    intro db db' h
    simp only [insertAll, Except.ok.injEq] at h
    simp [← h]
  | cons t ts ih =>
    intro db db' h
    unfold insertAll at h
    cases hI : db.insertTile (rowOfTile t) with
    | error e => rw [hI] at h; exact absurd h (by simp)
    | ok db2 =>
      rw [hI] at h
      rw [ih db2 db' h, (insertTile_ok hI).1]
      simp

theorem insertAll_ok_nodup :
    ∀ (ts : List TileRec) (db db' : DB),
      insertAll db ts = .ok db' →
        (ts.map (fun t => rowKey (rowOfTile t))).Nodup ∧
          ∀ k ∈ ts.map (fun t => rowKey (rowOfTile t)),
            k ∉ (db.committed ++ db.pending).map rowKey := by
  intro ts
  induction ts with
  | nil => intro db db' _; exact ⟨List.nodup_nil, by simp⟩
  | cons t ts ih =>
    intro db db' h
    unfold insertAll at h
    cases hI : db.insertTile (rowOfTile t) with
    | error e => rw [hI] at h; exact absurd h (by simp)
    | ok db2 =>
      rw [hI] at h
      obtain ⟨hdb2, hfresh⟩ := insertTile_ok hI
      obtain ⟨hnd, hnotin⟩ := ih db2 db' h
      have hmem2 : (db2.committed ++ db2.pending).map rowKey =
          (db.committed ++ db.pending).map rowKey ++ [rowKey (rowOfTile t)] := by
        rw [hdb2]
        simp
      constructor
      · refine List.nodup_cons.mpr ⟨?_, hnd⟩
        intro hmem
        have := hnotin _ hmem
        rw [hmem2] at this
        simp at this
      · intro k hk
        simp only [List.map_cons, List.mem_cons] at hk
        rcases hk with hk | hk
        · subst hk
          intro hmem
          simp only [List.mem_map] at hmem
          obtain ⟨q, hq, hkey⟩ := hmem
          exact hfresh q hq hkey
        · intro hmem
          have := hnotin _ hk
          rw [hmem2] at this
          exact this (List.mem_append_left _ hmem)

/-! ## The claims -/

/-- C1: every tile `(z, x, y)` discovered by the walker and inserted is
stored as the row `(z, x, 2^z - 1 - y)` (with its data), and the
conversion round-trips: `2^z - 1 - tile_row` recovers the original
XYZ row `y`. -/
theorem claim_C1 (entries : List Entry) (t : TileRec)
    (_ht : t ∈ walkTiles entries) :
    rowOfTile t = ⟨t.z, t.x, (2 ^ t.z : ℤ) - 1 - (t.y : ℤ), t.data⟩ ∧
      (2 ^ t.z : ℤ) - 1 - (rowOfTile t).tile_row = (t.y : ℤ) := by
  have h2 : ((1 <<< t.z : ℕ) : ℤ) = (2 ^ t.z : ℤ) := by
    rw [Nat.one_shiftLeft]
    push_cast
    ring
  unfold rowOfTile tmsRow
  rw [h2]
  exact ⟨rfl, by ring⟩

theorem claim_C1_w :
    (⟨0, 0, 0, 7⟩ : TileRec) ∈
        walkTiles [Entry.dir "0" [Entry.dir "0" [Entry.file "0.png" 7]]] ∧
      (rowOfTile ⟨0, 0, 0, 7⟩ =
          ⟨0, 0, (2 ^ 0 : ℤ) - 1 - ((0 : ℕ) : ℤ), 7⟩ ∧
        (2 ^ 0 : ℤ) - 1 - (rowOfTile ⟨0, 0, 0, 7⟩).tile_row = ((0 : ℕ) : ℤ)) :=
  ⟨by decide, claim_C1 [Entry.dir "0" [Entry.dir "0" [Entry.file "0.png" 7]]]
    ⟨0, 0, 0, 7⟩ (by decide)⟩

/-- C2: the per-tile edges used by the accumulation are exactly the
spec's Web Mercator formulas (with `n = 2^z`), and after the walk each
bounds accumulator equals the min/max of the corresponding edge over
exactly the tiles actually present — the union over the walked tiles,
not over any bounding rectangular tile range. -/
theorem claim_C2 (entries : List Entry) :
    (∀ t : TileRec,
        lonLeftOf t = specLonLeft t.x t.z ∧
        lonRightOf t = specLonRight t.x t.z ∧
        latTopOf t = specLat t.z (t.y : ℝ) ∧
        latBottomOf t = specLat t.z ((t.y : ℝ) + 1)) ∧
    (boundsAcc (walkTiles entries)).minLon =
        minOver ((walkTiles entries).map lonLeftOf) ∧
    (boundsAcc (walkTiles entries)).minLat =
        minOver ((walkTiles entries).map latBottomOf) ∧
    (boundsAcc (walkTiles entries)).maxLon =
        maxOver ((walkTiles entries).map lonRightOf) ∧
    (boundsAcc (walkTiles entries)).maxLat =
        maxOver ((walkTiles entries).map latTopOf) := by
  refine ⟨?_, ?_, ?_, ?_, ?_⟩
  · intro t
    refine ⟨?_, ?_, ?_, ?_⟩ <;>
      simp only [lonLeftOf, lonRightOf, latTopOf, latBottomOf, tile_bounds,
        mercator_to_lat, specLonLeft, specLonRight, specLat,
        one_shiftLeft_cast_real]
  · rw [boundsAcc, foldBounds_minLon]
    exact foldl_accStep_none min _
  · rw [boundsAcc, foldBounds_minLat]
    exact foldl_accStep_none min _
  · rw [boundsAcc, foldBounds_maxLon]
    exact foldl_accStep_none max _
  · rw [boundsAcc, foldBounds_maxLat]
    exact foldl_accStep_none max _

/-- C3 as stated is false: on a zero-tile source the run does exit
non-zero, but the freshly created destination file persists (the
script deletes a pre-existing destination, creates a new one via
`sqlite3.connect`, and never removes it on the `SystemExit` at
lines 92-93).  At the concrete empty source below, the claim's "no
destination file persists after the failure" fails. -/
theorem claim_C3_cex :
    (runModel true [] false).outcome = .emptyTileSet ∧
      Outcome.emptyTileSet.exitCode ≠ 0 ∧
      (runModel true [] false).destExists = true := by decide

/-- C3 (amended): if the traversal discovers zero valid tile files,
the run fails with a non-zero exit and no tiles are committed, but a
freshly created schema-only destination file persists. -/
theorem claim_C3 (entries : List Entry) (destB : Bool)
    (h : walkTiles entries = []) :
    (runModel true entries destB).outcome = .emptyTileSet ∧
      Outcome.emptyTileSet.exitCode ≠ 0 ∧
      (runModel true entries destB).destExists = true ∧
      (runModel true entries destB).committed = [] := by
  simp [runModel, h, insertAll, DB.commitTxn, Outcome.exitCode]

theorem claim_C3_w :
    walkTiles [Entry.file "abc.png" 5, Entry.dir "z1" []] = [] ∧
      ((runModel true [Entry.file "abc.png" 5, Entry.dir "z1" []] true).outcome
          = .emptyTileSet ∧
        Outcome.emptyTileSet.exitCode ≠ 0 ∧
        (runModel true [Entry.file "abc.png" 5, Entry.dir "z1" []] true).destExists
          = true ∧
        (runModel true [Entry.file "abc.png" 5, Entry.dir "z1" []] true).committed
          = []) :=
  ⟨by decide,
    claim_C3 [Entry.file "abc.png" 5, Entry.dir "z1" []] true (by decide)⟩

/-- C4 as stated is false: `min_zoom` / `max_zoom` are updated once per
valid digit-named zoom *directory* (lines 62-63), before any tile file
is read, not once per inserted tile.  A zoom-named directory with no
valid tile files does affect them: below, the empty directory `5`
drives `max_zoom` to 5 although every walked tile has zoom 0. -/
theorem claim_C4_cex :
    maxZoomAcc [Entry.dir "0" [Entry.dir "0" [Entry.file "0.png" 7]],
        Entry.dir "5" []] = some 5 ∧
      maxOver ((walkTiles [Entry.dir "0" [Entry.dir "0" [Entry.file "0.png" 7]],
          Entry.dir "5" []]).map TileRec.z) = some 0 ∧
      (some 5 : Option ℕ) ≠ some 0 := by decide

/-- C4 (amended): the `minzoom` / `maxzoom` accumulators equal the
minimum and maximum over the valid digit-named zoom directories
encountered by the walk — one update per such directory, whether or
not it contains any valid tile file. -/
theorem claim_C4 (entries : List Entry) :
    minZoomAcc entries = minOver (walkZoomDirs entries) ∧
      maxZoomAcc entries = maxOver (walkZoomDirs entries) :=
  ⟨foldl_accStep_none min _, foldl_accStep_none max _⟩

/-- C5: if two source tile files map to the same
`(zoom_level, tile_column, tile_row)` after TMS conversion, the unique
index makes the insert fail and the run aborts with nothing committed:
no duplicate row is silently overwritten or dropped. -/
theorem claim_C5 (entries : List Entry) (destB : Bool)
    (hdup : ¬ ((walkTiles entries).map (fun t => rowKey (rowOfTile t))).Nodup) :
    (runModel true entries destB).outcome = .dupError ∧
      Outcome.dupError.exitCode ≠ 0 ∧
      (runModel true entries destB).committed = [] := by
  cases h' : insertAll ⟨[], []⟩ (walkTiles entries) with
  | ok db1 => exact absurd (insertAll_ok_nodup _ _ _ h').1 hdup
  | error dbE =>
    have hc : dbE.committed = [] := insertAll_error_committed _ _ _ h'
    refine ⟨?_, by decide, ?_⟩ <;> simp [runModel, h', hc]

theorem claim_C5_w :
    ¬ ((walkTiles [Entry.dir "1" [Entry.dir "0"
          [Entry.file "01.png" 1, Entry.file "1.png" 2]]]).map
        (fun t => rowKey (rowOfTile t))).Nodup ∧
      ((runModel true [Entry.dir "1" [Entry.dir "0"
            [Entry.file "01.png" 1, Entry.file "1.png" 2]]] false).outcome
          = .dupError ∧
        Outcome.dupError.exitCode ≠ 0 ∧
        (runModel true [Entry.dir "1" [Entry.dir "0"
            [Entry.file "01.png" 1, Entry.file "1.png" 2]]] false).committed
          = []) :=
  ⟨by decide,
    claim_C5 [Entry.dir "1" [Entry.dir "0"
      [Entry.file "01.png" 1, Entry.file "1.png" 2]]] false (by decide)⟩

/-- C6: all tile inserts happen inside the single `BEGIN` ... `COMMIT`
transaction, so the committed `tiles` table is all-or-nothing: after
any run it holds every discovered tile exactly when the run succeeded,
and no tile at all on every failure path (in particular on a failure
mid-stream, when the exception propagates before the commit). -/
theorem claim_C6 (sourceExists : Bool) (entries : List Entry) (destB : Bool) :
    (runModel sourceExists entries destB).committed =
      if (runModel sourceExists entries destB).outcome = .success
      then (walkTiles entries).map rowOfTile
      else [] := by
  cases sourceExists with
  | false => simp [runModel]
  | true =>
    cases h' : insertAll ⟨[], []⟩ (walkTiles entries) with
    | error dbE =>
      have hc := insertAll_error_committed _ _ _ h'
      simp [runModel, h', hc]
    | ok db1 =>
      have he := insertAll_ok_eq _ _ _ h'
      by_cases hl : (walkTiles entries).length = 0
      · have hnil : walkTiles entries = [] := List.length_eq_zero.mp hl
        simp [runModel, hnil, insertAll, DB.commitTxn]
      · simp [runModel, h', hl, he, DB.commitTxn]

/-- C7: whenever at least one tile was processed, the accumulated
bounds are all present with `min_lon ≤ max_lon` and
`min_lat ≤ max_lat`, and the computed center (the midpoint of the
bounds, lines 95-96) lies within `[min, max]` on both axes. -/
theorem claim_C7 (entries : List Entry) (h : walkTiles entries ≠ []) :
    ∃ a b c d, boundsAcc (walkTiles entries) = ⟨some a, some b, some c, some d⟩ ∧
      a ≤ c ∧ b ≤ d ∧
      a ≤ (a + c) / 2 ∧ (a + c) / 2 ≤ c ∧
      b ≤ (b + d) / 2 ∧ (b + d) / 2 ≤ d := by
  obtain ⟨a, b, c, d, hb, hac, hbd⟩ := boundsAcc_some _ h
  exact ⟨a, b, c, d, hb, hac, hbd,
    by linarith, by linarith, by linarith, by linarith⟩

theorem claim_C7_w :
    walkTiles [Entry.dir "1" [Entry.dir "0" [Entry.file "0.png" 4],
        Entry.dir "1" [Entry.file "1.png" 5]]] ≠ [] ∧
      (∃ a b c d,
        boundsAcc (walkTiles [Entry.dir "1" [Entry.dir "0" [Entry.file "0.png" 4],
            Entry.dir "1" [Entry.file "1.png" 5]]]) =
          ⟨some a, some b, some c, some d⟩ ∧
        a ≤ c ∧ b ≤ d ∧
        a ≤ (a + c) / 2 ∧ (a + c) / 2 ≤ c ∧
        b ≤ (b + d) / 2 ∧ (b + d) / 2 ≤ d) :=
  ⟨by decide,
    claim_C7 [Entry.dir "1" [Entry.dir "0" [Entry.file "0.png" 4],
      Entry.dir "1" [Entry.file "1.png" 5]]] (by decide)⟩

/-- C8: on success the metadata table holds exactly the ten required
keys in insertion order, with `type = "baselayer"`, `format = "png"`,
the fixed name/description/version strings, `bounds` and `center`
carrying the accumulated extremes and their midpoint (rendered to six
decimal places by the script), `minzoom`/`maxzoom`/`tilecount` as
decimal strings of integers with `tilecount` the number of inserted
tiles, and the center zoom equal to the single zoom when
`minzoom = maxzoom` and to their floor-division average otherwise. -/
theorem claim_C8 (entries : List Entry) (h : walkTiles entries ≠ []) :
    ∃ a b c d mz Mz,
      metadataOf entries = some
        [("name", MVal.vstr "Campus Map"),
         ("type", MVal.vstr "baselayer"),
         ("description", MVal.vstr "Offline campus tiles"),
         ("format", MVal.vstr "png"),
         ("version", MVal.vstr "1.0"),
         ("bounds", MVal.vbounds a b c d),
         ("center", MVal.vcenter ((a + c) / 2) ((b + d) / 2)
            (if mz = Mz then mz else (mz + Mz) / 2)),
         ("minzoom", MVal.vstr (toString mz)),
         ("maxzoom", MVal.vstr (toString Mz)),
         ("tilecount", MVal.vstr (toString (walkTiles entries).length))] := by
  obtain ⟨a, b, c, d, hb, _, _⟩ := boundsAcc_some _ h
  obtain ⟨mz, Mz, hmz, hMz⟩ := zoomAcc_some entries (walkZoomDirs_ne_nil h)
  refine ⟨a, b, c, d, mz, Mz, ?_⟩
  unfold metadataOf
  rw [hb, hmz, hMz]
  rfl

theorem claim_C8_w :
    walkTiles [Entry.dir "0" [Entry.dir "0" [Entry.file "0.png" 7]]] ≠ [] ∧
      (∃ a b c d mz Mz,
        metadataOf [Entry.dir "0" [Entry.dir "0" [Entry.file "0.png" 7]]] = some
          [("name", MVal.vstr "Campus Map"),
           ("type", MVal.vstr "baselayer"),
           ("description", MVal.vstr "Offline campus tiles"),
           ("format", MVal.vstr "png"),
           ("version", MVal.vstr "1.0"),
           ("bounds", MVal.vbounds a b c d),
           ("center", MVal.vcenter ((a + c) / 2) ((b + d) / 2)
              (if mz = Mz then mz else (mz + Mz) / 2)),
           ("minzoom", MVal.vstr (toString mz)),
           ("maxzoom", MVal.vstr (toString Mz)),
           ("tilecount", MVal.vstr (toString
              (walkTiles [Entry.dir "0" [Entry.dir "0"
                [Entry.file "0.png" 7]]]).length))]) :=
  ⟨by decide,
    claim_C8 [Entry.dir "0" [Entry.dir "0" [Entry.file "0.png" 7]]] (by decide)⟩

/-- C9: if the source root directory does not exist, the run exits
non-zero before performing any write: nothing is committed and the
destination file's prior existence is unchanged (the source check at
lines 21-22 precedes the destination deletion at lines 24-25). -/
theorem claim_C9 (entries : List Entry) (destB : Bool) :
    runModel false entries destB = ⟨.sourceMissing, destB, []⟩ ∧
      Outcome.sourceMissing.exitCode ≠ 0 :=
  ⟨rfl, by decide⟩

/-- C10 as stated is false: the walker checks only that names are digit
strings and never compares `x` or `y` against `2^z`, so out-of-range
coordinates are stored.  Concretely, the tile file `0/0/1.png` (z = 0,
y = 1) is accepted and stored with `tile_row = 2^0 - 1 - 1 = -1`,
which is not in `[0, 2^0)`. -/
theorem claim_C10_cex :
    (runModel true [Entry.dir "0" [Entry.dir "0" [Entry.file "1.png" 3]]]
        false).outcome = .success ∧
      (runModel true [Entry.dir "0" [Entry.dir "0" [Entry.file "1.png" 3]]]
          false).committed = [⟨0, 0, -1, 3⟩] ∧
      ¬ (0 ≤ (-1 : ℤ)) := by decide

/-- C10 (amended): discovered `z`, `x`, `y` are non-negative by
construction (digit-named entries), and every stored row satisfies
`tile_row ≤ 2^z - 1`; but the upper bounds are not enforced —
`tile_row` is non-negative (i.e. in `[0, 2^z)`) exactly when the
source row satisfied `y < 2^z`, and a source row `y ≥ 2^z` is stored
with a negative `tile_row` (likewise `x` is never checked against
`2^z`). -/
theorem claim_C10 (entries : List Entry) (t : TileRec)
    (_ht : t ∈ walkTiles entries) :
    (rowOfTile t).tile_row ≤ 2 ^ t.z - 1 ∧
      (0 ≤ (rowOfTile t).tile_row ↔ (t.y : ℤ) < 2 ^ t.z) := by
  have h2 : ((1 <<< t.z : ℕ) : ℤ) = (2 ^ t.z : ℤ) := by
    rw [Nat.one_shiftLeft]
    push_cast
    ring
  have hy : (0 : ℤ) ≤ (t.y : ℤ) := Int.ofNat_nonneg _
  unfold rowOfTile tmsRow
  rw [h2]
  constructor
  · simp only
    linarith
  · simp only
    constructor
    · intro hge
      linarith
    · intro hlt
      have := Int.lt_iff_add_one_le.mp hlt
      linarith

theorem claim_C10_w :
    (⟨2, 1, 3, 9⟩ : TileRec) ∈
        walkTiles [Entry.dir "2" [Entry.dir "1" [Entry.file "3.png" 9]]] ∧
      ((rowOfTile ⟨2, 1, 3, 9⟩).tile_row ≤ 2 ^ 2 - 1 ∧
        (0 ≤ (rowOfTile ⟨2, 1, 3, 9⟩).tile_row ↔ ((3 : ℕ) : ℤ) < 2 ^ 2)) :=
  ⟨by decide,
    claim_C10 [Entry.dir "2" [Entry.dir "1" [Entry.file "3.png" 9]]]
      ⟨2, 1, 3, 9⟩ (by decide)⟩
